import Mathlib

/-!
Shallow embedding of the vectorized backtesting core of the repository
(`src/backtest/engine.py`, `src/backtest/metrics.py`,
`src/strategies/ema_cross.py`, `src/indicators/technical.py`).

Conventions of the embedding:
* a pandas `Series` of floats is a `List ℝ`; a series that may contain
  NaN entries is a `List (Option ℝ)` with `none` standing for NaN;
* elementwise pandas arithmetic on NaN-free series is ordinary real
  arithmetic; NaN propagates through arithmetic, hence `Option.bind`;
* `Series.fillna(0)` is `fillna0`, `Series.dropna()` is `dropna`;
* float division of a positive number by zero yields `+inf` and `0/0`
  yields NaN in the source; the places where this matters (the RSI
  ratio) are modelled by the explicit case split the float semantics
  induces, documented at the definition;
* Python `float("inf")` for the profit factor is modelled by `EReal`
  with value `⊤`.
-/

open Classical

noncomputable section

namespace QuantBot

/-- Model of `Series.pct_change()` on a NaN-free series: entry 0 is NaN, entry `t ≥ 1`
is `x[t]/x[t-1] - 1` (engine.py line 83). -/
def pct_change (xs : List ℝ) : List (Option ℝ) :=
  List.ofFn fun i : Fin xs.length =>
    if i.1 = 0 then none else some (xs.getD i.1 0 / xs.getD (i.1 - 1) 0 - 1)

/-- Model of `Series.shift(1)` on a NaN-free series: entry 0 is NaN, entry `t ≥ 1` is
`x[t-1]` (engine.py line 90, `signals.shift(1)`). -/
def shift1 (xs : List ℝ) : List (Option ℝ) :=
  List.ofFn fun i : Fin xs.length =>
    if i.1 = 0 then none else some (xs.getD (i.1 - 1) 0)

/-- Model of `Series.diff().fillna(0)` on a NaN-free series: entry 0 is 0 (the NaN of
`diff` filled), entry `t ≥ 1` is `x[t] - x[t-1]`. -/
def diff_fillna0 (xs : List ℝ) : List ℝ :=
  List.ofFn fun i : Fin xs.length =>
    if i.1 = 0 then 0 else xs.getD i.1 0 - xs.getD (i.1 - 1) 0

/-- Model of `signals.diff().fillna(0).abs()` (engine.py line 87). -/
def position_changes (signals : List ℝ) : List ℝ :=
  (diff_fillna0 signals).map (fun x => |x|)

/-- Model of `Series.fillna(0)`: replace every NaN entry by 0. -/
def fillna0 (xs : List (Option ℝ)) : List ℝ :=
  xs.map (fun x => x.getD 0)

/-- Model of `Series.dropna()`: keep the defined entries. -/
def dropna (xs : List (Option ℝ)) : List ℝ :=
  xs.filterMap id

/-- engine.py line 90:
`(returns * signals.shift(1)) - (position_changes * self.total_cost)`,
before the `fillna(0)` of line 91.  NaN (from `pct_change` at index 0 and
from `shift(1)` at index 0) propagates through `*` and `-`. -/
def strategy_returns_raw (total_cost : ℝ) (close signals : List ℝ) :
    List (Option ℝ) :=
  List.ofFn fun i : Fin close.length =>
    ((pct_change close).getD i.1 none).bind fun r =>
      ((shift1 signals).getD i.1 none).map fun s =>
        r * s - (position_changes signals).getD i.1 0 * total_cost

/-- engine.py line 91: `strategy_returns = strategy_returns.fillna(0)`. -/
def strategy_returns (total_cost : ℝ) (close signals : List ℝ) : List ℝ :=
  fillna0 (strategy_returns_raw total_cost close signals)

/-- engine.py line 94:
`equity_curve = self.initial_capital * (1 + strategy_returns).cumprod()`;
entry `t` of a cumulative product is the product of entries `0 … t`. -/
def equity_curve (initial_capital : ℝ) (sr : List ℝ) : List ℝ :=
  List.ofFn fun i : Fin sr.length =>
    initial_capital * ∏ j ∈ Finset.range (i.1 + 1), (1 + sr.getD j 0)

/-- Entry access used throughout: `xs[t]`, with the (never relevant)
default 0 out of range. -/
def nth (xs : List ℝ) (t : ℕ) : ℝ :=
  xs.getD t 0

/-! ### Metrics calculator (`src/backtest/metrics.py`) -/

/-- Arithmetic mean of a series (`Series.mean()`). -/
def mean (xs : List ℝ) : ℝ :=
  xs.sum / xs.length

/-- Model of `Series.std()`: sample standard deviation (pandas default `ddof=1`).
For a single observation pandas yields NaN; here the junk value
`sqrt (v / 0) = 0` arises instead — both fail the strict `volatility > 0`
guard in metrics.py line 85, the only place the value is consumed, so the
sharpe ratio is unaffected. -/
def sampleStd (xs : List ℝ) : ℝ :=
  Real.sqrt ((xs.map (fun x => (x - mean xs) ^ 2)).sum / ((xs.length : ℝ) - 1))

/-- Minimum of a list of reals (`ndarray.min()`; the source only applies it
to non-empty arrays, the value 0 for `[]` is never reached). -/
def listMin : List ℝ → ℝ
  | [] => 0
  | [x] => x
  | x :: y :: l => min x (listMin (y :: l))

/-- Maximum of a list of reals (used for the running peak). -/
def listMax : List ℝ → ℝ
  | [] => 0
  | [x] => x
  | x :: y :: l => max x (listMax (y :: l))

/-- Model of `np.maximum.accumulate`: entry `t` is the maximum of entries `0 … t`
(metrics.py line 93). -/
def running_max (xs : List ℝ) : List ℝ :=
  List.ofFn fun i : Fin xs.length => listMax (xs.take (i.1 + 1))

/-- Model of `returns[returns > 0]` (metrics.py line 105). -/
def winning_returns (returns : List ℝ) : List ℝ :=
  returns.filter (fun x => decide (0 < x))

/-- Model of `returns[returns < 0]` (metrics.py line 106). -/
def losing_returns (returns : List ℝ) : List ℝ :=
  returns.filter (fun x => decide (x < 0))

/-- Model of `returns[returns != 0]` (metrics.py line 116). -/
def nonzero_returns (returns : List ℝ) : List ℝ :=
  returns.filter (fun x => decide (x ≠ 0))

/-- The metrics record (`BacktestMetrics` dataclass, metrics.py lines 9-42).
`profit_factor` is an `EReal` because the source stores `float("inf")` when
there are no losses. -/
structure BacktestMetrics where
  total_return : ℝ
  annual_return : ℝ
  sharpe_ratio : ℝ
  max_drawdown : ℝ
  win_rate : ℝ
  total_trades : ℕ
  profit_factor : EReal
  avg_trade_return : ℝ

/-- Model of `calculate_metrics` (metrics.py lines 45-127), clause by clause:
`returns.dropna()`; the zero record on an empty series; total return as a
product; bar-count annualization with the fixed 365 divisor guarded by
`total_return > -1`; annualized sample volatility and the guarded sharpe
ratio; running-peak drawdown and its minimum; trade count from the signal
first difference (fallback: count of non-zero returns); win rate over
realized wins plus losses; profit factor with `float("inf")` when there are
no losses; average non-zero return. -/
def calculate_metrics (returnsIn : List (Option ℝ)) (equity : List ℝ)
    (signals : Option (List ℝ)) : BacktestMetrics :=
  let returns := dropna returnsIn
  if returns.length = 0 then
    ⟨0, 0, 0, 0, 0, 0, 0, 0⟩
  else
    let total_return := (returns.map (fun r => 1 + r)).prod - 1
    let days := returns.length
    let annual_return :=
      if 0 < days ∧ -1 < total_return then
        (1 + total_return) ^ ((365 : ℝ) / days) - 1
      else 0
    let volatility := sampleStd returns * Real.sqrt 365
    let sharpe_ratio := if 0 < volatility then annual_return / volatility else 0
    let peak := running_max equity
    let drawdown := List.zipWith (fun e p => (e - p) / p) equity peak
    let max_drawdown := listMin drawdown
    let total_trades :=
      match signals with
      | some s => ((diff_fillna0 s).filter (fun x => decide (x ≠ 0))).length
      | none => (nonzero_returns returns).length
    let winning := winning_returns returns
    let losing := losing_returns returns
    let total_trading_days := winning.length + losing.length
    let win_rate :=
      if 0 < total_trading_days then
        (winning.length : ℝ) / total_trading_days
      else 0
    let total_gains := if 0 < winning.length then winning.sum else 0
    let total_losses := if 0 < losing.length then |losing.sum| else 0
    let profit_factor : EReal :=
      if 0 < total_losses then ((total_gains / total_losses : ℝ) : EReal) else ⊤
    let avg_trade_return :=
      if (nonzero_returns returns).length ≠ 0 then mean (nonzero_returns returns) else 0
    ⟨total_return, annual_return, sharpe_ratio, max_drawdown, win_rate,
      total_trades, profit_factor, avg_trade_return⟩

/-! ### Engine single run (`BacktestEngine.run`, engine.py lines 68-110) -/

/-- The parts of `BacktestResult` the claims are about. -/
structure BacktestResult where
  metrics : BacktestMetrics
  equity : List ℝ
  signals : List ℝ

/-- Model of `BacktestEngine.run`: `strategy.calculate` produces the signal column,
then lines 83-97 compute filled strategy returns, the equity curve, and the
metrics.  The `fillna(0)` of line 91 happens before `calculate_metrics` is
called, so the metrics calculator receives a series with no NaN entries. -/
def run (total_cost initial_capital : ℝ) (close : List ℝ)
    (strategy : List ℝ → List ℝ) : BacktestResult :=
  let signals := strategy close
  let sr := strategy_returns total_cost close signals
  let equity := equity_curve initial_capital sr
  ⟨calculate_metrics (sr.map some) equity (some signals), equity, signals⟩

/-! ### Grid search and walk-forward (engine.py lines 112-208) -/

/-- One row of the grid-search summary table: the parameter combination it
came from together with its metrics (`result.summary()`, engine.py line
141; the row's parameter columns round-trip through the summary dict). -/
structure SummaryRow (P : Type) where
  params : P
  metrics : BacktestMetrics

/-- pandas `DataFrame.sort_values(by, ascending=False)` on one numeric
column (engine.py line 153).  pandas `nargsort` reverses the value array
and the index array, computes the ascending argsort of the reversed
values, and reverses the resulting indexer again; the two reversals
cancel on rows with equal keys, so ties keep their input order.  The
ascending argsort is realized here by a stable sort - the tie order
pandas pins down for its stable kinds and the one numpy's sorts produce
on such inputs. -/
def sort_values_desc {α : Type} (key : α → ℝ) (rows : List α) : List α :=
  (List.insertionSort (fun a b => key a ≤ key b) rows.reverse).reverse

/-- Model of `BacktestEngine.grid_search` (engine.py lines 112-155) over the
expanded combination list (the `itertools.product` of the parameter grid,
in generation order); `none` models a combination skipped by the
try/except of lines 138-144. -/
def grid_search {P : Type} (combos : List P)
    (evalCombo : P → Option (SummaryRow P)) (key : SummaryRow P → ℝ) :
    List (SummaryRow P) :=
  sort_values_desc key (combos.filterMap evalCombo)

/-- The engine's per-combination evaluation inside `grid_search`:
construct the strategy from the parameters and `run` it (lines 139-141). -/
def run_summary {P : Type} (total_cost initial_capital : ℝ)
    (strategySignal : P → List ℝ → List ℝ) (close : List ℝ) (p : P) :
    SummaryRow P :=
  ⟨p, (run total_cost initial_capital close (strategySignal p)).metrics⟩

/-- Model of `grid_search` as the engine invokes it with a strategy family. -/
def engine_grid_search {P : Type} (total_cost initial_capital : ℝ)
    (strategySignal : P → List ℝ → List ℝ) (close : List ℝ)
    (combos : List P) (key : SummaryRow P → ℝ) : List (SummaryRow P) :=
  grid_search combos
    (fun p => some (run_summary total_cost initial_capital strategySignal close p))
    key

/-- engine.py line 179: `split_idx = int(len(df) * train_ratio)`; Python
`int()` truncates toward zero, the floor on this nonnegative product. -/
def split_idx (length : ℕ) (train_ratio : ℝ) : ℕ :=
  (⌊(length : ℝ) * train_ratio⌋).toNat

/-- Model of `BacktestEngine.walk_forward` (engine.py lines 157-208): split the bars
at `split_idx` into train prefix and test suffix, grid-search the train
prefix only, and evaluate the test suffix once with the parameters of the
top row (`train_results.iloc[0]`); `none` models the
"No valid results in training period" outcome. -/
def walk_forward {P : Type} (total_cost initial_capital : ℝ)
    (strategySignal : P → List ℝ → List ℝ) (close : List ℝ)
    (combos : List P) (key : SummaryRow P → ℝ) (train_ratio : ℝ) :
    Option (P × BacktestResult) :=
  match engine_grid_search total_cost initial_capital strategySignal
      (close.take (split_idx close.length train_ratio)) combos key with
  | [] => none
  | best :: _ =>
      some (best.params,
        run total_cost initial_capital
          (close.drop (split_idx close.length train_ratio))
          (strategySignal best.params))

/-! ### Strategies (`src/strategies/ema_cross.py`,
`src/indicators/technical.py`) -/

/-- Model of `Series.ewm(span=period, adjust=False).mean()` recursion with
`α = 2/(span+1)`: `y[0] = x[0]`, `y[t] = α·x[t] + (1-α)·y[t-1]`. -/
def ewm_rec (a : ℝ) (c : ℕ → ℝ) : ℕ → ℝ
  | 0 => c 0
  | t + 1 => a * c (t + 1) + (1 - a) * ewm_rec a c t

/-- Model of `ema` (technical.py lines 26-38). -/
def ema (close : List ℝ) (period : ℕ) : List ℝ :=
  List.ofFn fun i : Fin close.length =>
    ewm_rec (2 / ((period : ℝ) + 1)) (fun t => close.getD t 0) i.1

/-- Model of `gain = delta.where(delta > 0, 0)` on `delta = close.diff()`
(technical.py lines 53-55): 0 at index 0 (the NaN fails the test), else
the positive part of the difference. -/
def rsi_gain (close : List ℝ) : List ℝ :=
  List.ofFn fun i : Fin close.length =>
    if i.1 = 0 then 0 else max (close.getD i.1 0 - close.getD (i.1 - 1) 0) 0

/-- Model of `loss = -delta.where(delta < 0, 0)` (technical.py line 56). -/
def rsi_loss (close : List ℝ) : List ℝ :=
  List.ofFn fun i : Fin close.length =>
    if i.1 = 0 then 0 else max (close.getD (i.1 - 1) 0 - close.getD i.1 0) 0

/-- Model of `Series.rolling(window=w).mean()`: NaN until `w` observations are
available, then the mean of the trailing window. -/
def rolling_mean (xs : List ℝ) (w : ℕ) : List (Option ℝ) :=
  List.ofFn fun i : Fin xs.length =>
    if i.1 + 1 < w then none
    else some ((∑ j ∈ Finset.Ico (i.1 + 1 - w) (i.1 + 1), xs.getD j 0) / w)

/-- Model of `rs = avg_gain / avg_loss; rsi = 100 - 100/(1+rs)` (technical.py lines
61-62) under float semantics on the nonnegative averages: a positive
numerator over 0 is `+inf`, giving RSI 100; `0/0` is NaN and propagates. -/
def rsi_value (g l : ℝ) : Option ℝ :=
  if l ≠ 0 then some (100 - 100 / (1 + g / l))
  else if g ≠ 0 then some 100
  else none

/-- Model of `rsi` (technical.py lines 41-62). -/
def rsi (close : List ℝ) (period : ℕ) : List (Option ℝ) :=
  List.ofFn fun i : Fin close.length =>
    match (rolling_mean (rsi_gain close) period).getD i.1 none,
          (rolling_mean (rsi_loss close) period).getD i.1 none with
    | some g, some l => rsi_value g l
    | _, _ => none

/-- Model of `SimpleEMACrossStrategy.calculate` signal column (ema_cross.py lines
114-123): +1 where the short EMA is above the long EMA, -1 where below,
0 otherwise. -/
def simple_ema_cross_signal (short_period long_period : ℕ)
    (close : List ℝ) : List ℝ :=
  List.ofFn fun i : Fin close.length =>
    if (ema close short_period).getD i.1 0 >
        (ema close long_period).getD i.1 0 then 1
    else if (ema close short_period).getD i.1 0 <
        (ema close long_period).getD i.1 0 then -1
    else 0

/-- Model of `EMACrossStrategy.__init__` parameters (ema_cross.py lines 19-35). -/
structure EMACrossParams where
  short_period : ℕ
  long_period : ℕ
  trend_period : ℕ
  rsi_period : ℕ
  rsi_threshold : ℝ
  use_trend_filter : Bool
  use_rsi_filter : Bool

/-- The base crossover signal of `EMACrossStrategy.calculate` (ema_cross.py
lines 71-73), before the filters. -/
def ema_cross_base (p : EMACrossParams) (close : List ℝ) : List ℝ :=
  List.ofFn fun i : Fin close.length =>
    if (ema close p.short_period).getD i.1 0 >
        (ema close p.long_period).getD i.1 0 then 1
    else if (ema close p.short_period).getD i.1 0 <
        (ema close p.long_period).getD i.1 0 then -1
    else 0

/-- The float comparison `rsi > threshold` of ema_cross.py line 82: False
on a NaN RSI value. -/
def rsi_above (close : List ℝ) (period : ℕ) (threshold : ℝ) (i : ℕ) : Prop :=
  match (rsi close period).getD i none with
  | some rv => rv > threshold
  | none => False

/-- Model of `EMACrossStrategy.calculate` signal column (ema_cross.py lines 56-85):
the base crossover signal, then - when enabled - the trend filter zeroes
the bars whose (current) signal is 1 and whose close is not above the
trend EMA (lines 76-78), then - when enabled - the RSI filter zeroes the
bars whose (possibly updated) signal is 1 and whose RSI is not above the
threshold (lines 81-83). -/
def ema_cross_signal (p : EMACrossParams) (close : List ℝ) : List ℝ :=
  List.ofFn fun i : Fin close.length =>
    let s0 := (ema_cross_base p close).getD i.1 0
    let s1 := if p.use_trend_filter ∧ s0 = 1 ∧
        ¬(close.getD i.1 0 > (ema close p.trend_period).getD i.1 0) then 0
      else s0
    if p.use_rsi_filter ∧ s1 = 1 ∧
        ¬ rsi_above close p.rsi_period p.rsi_threshold i.1 then 0
    else s1

/-- Trade counting as the spec phrases it: the number of bars whose signal
value differs from the previous bar's value. -/
def change_count : List ℝ → ℕ
  | [] => 0
  | [_] => 0
  | x :: y :: l => (if x = y then 0 else 1) + change_count (y :: l)


/-! ### Shared helper lemmas -/

theorem length_pct_change (xs : List ℝ) :
    (pct_change xs).length = xs.length := by
  simp [pct_change]

theorem length_shift1 (xs : List ℝ) :
    (shift1 xs).length = xs.length := by
  simp [shift1]

theorem length_diff_fillna0 (xs : List ℝ) :
    (diff_fillna0 xs).length = xs.length := by
  simp [diff_fillna0]

theorem length_position_changes (xs : List ℝ) :
    (position_changes xs).length = xs.length := by
  simp [position_changes, length_diff_fillna0]

theorem length_strategy_returns_raw (c : ℝ) (close signals : List ℝ) :
    (strategy_returns_raw c close signals).length = close.length := by
  simp [strategy_returns_raw]

theorem length_strategy_returns (c : ℝ) (close signals : List ℝ) :
    (strategy_returns c close signals).length = close.length := by
  simp [strategy_returns, fillna0, length_strategy_returns_raw]

theorem length_equity_curve (cap : ℝ) (sr : List ℝ) :
    (equity_curve cap sr).length = sr.length := by
  simp [equity_curve]

theorem getD_ofFn_lt {n : ℕ} (f : Fin n → ℝ) {i : ℕ} (h : i < n) (d : ℝ) :
    (List.ofFn f).getD i d = f ⟨i, h⟩ := by
  rw [List.getD_eq_getElem _ _ (by simpa using h)]
  simp

theorem getD_ofFn_lt' {n : ℕ} {β : Type} (f : Fin n → β) {i : ℕ} (h : i < n)
    (d : β) : (List.ofFn f).getD i d = f ⟨i, h⟩ := by
  rw [List.getD_eq_getElem _ _ (by simpa using h)]
  simp

/-- Entrywise value of the raw strategy-return series: NaN at index 0,
and the lagged-signal, cost-adjusted return at every later index. -/
theorem strategy_returns_raw_getD (c : ℝ) (close signals : List ℝ)
    (hlen : signals.length = close.length)
    {t : ℕ} (ht : t < close.length) :
    (strategy_returns_raw c close signals).getD t none =
      if t = 0 then none else
        some ((nth close t / nth close (t - 1) - 1) * nth signals (t - 1) -
          |nth signals t - nth signals (t - 1)| * c) := by
  have hs : t < signals.length := hlen ▸ ht
  rw [strategy_returns_raw, getD_ofFn_lt' _ ht]
  by_cases h0 : t = 0
  · subst h0
    have h1 : (pct_change close).getD 0 none = none := by
      rw [pct_change, getD_ofFn_lt' _ ht, if_pos rfl]
    rw [h1]
    simp
  · have h1 : (pct_change close).getD t none =
        some (nth close t / nth close (t - 1) - 1) := by
      rw [pct_change, getD_ofFn_lt' _ ht, if_neg h0]; rfl
    have h2 : (shift1 signals).getD t none = some (nth signals (t - 1)) := by
      rw [shift1, getD_ofFn_lt' _ hs, if_neg h0]; rfl
    have h3 : (position_changes signals).getD t 0 =
        |nth signals t - nth signals (t - 1)| := by
      rw [position_changes, diff_fillna0, List.map_ofFn, getD_ofFn_lt _ hs]
      simp [Function.comp, if_neg h0, nth, List.getD]
    rw [h1, h2, h3]
    simp [if_neg h0]

/-- Entrywise value of the filled strategy-return series (engine.py lines
90-91): 0 at index 0, formula at every later index. -/
theorem strategy_returns_nth (c : ℝ) (close signals : List ℝ)
    (hlen : signals.length = close.length)
    {t : ℕ} (ht : t < close.length) :
    nth (strategy_returns c close signals) t =
      if t = 0 then 0 else
        (nth close t / nth close (t - 1) - 1) * nth signals (t - 1) -
          |nth signals t - nth signals (t - 1)| * c := by
  have hraw : t < (strategy_returns_raw c close signals).length := by
    simpa [length_strategy_returns_raw] using ht
  rw [nth, strategy_returns, fillna0]
  rw [List.getD_eq_getElem _ _ (by simpa using hraw), List.getElem_map]
  have := strategy_returns_raw_getD c close signals hlen ht
  rw [List.getD_eq_getElem _ _ hraw] at this
  rw [this]
  by_cases h0 : t = 0 <;> simp [h0]

/-- Entrywise value of the equity curve. -/
theorem equity_curve_nth (cap : ℝ) (sr : List ℝ) {t : ℕ}
    (ht : t < sr.length) :
    nth (equity_curve cap sr) t =
      cap * ∏ j ∈ Finset.range (t + 1), (1 + nth sr j) := by
  rw [nth, equity_curve, getD_ofFn_lt _ ht]
  rfl



theorem dropna_map_some (xs : List ℝ) : dropna (xs.map some) = xs := by
  simp [dropna]

theorem strategy_returns_nth_zero (c : ℝ) (close signals : List ℝ)
    (hlen : signals.length = close.length) (h : 0 < close.length) :
    nth (strategy_returns c close signals) 0 = 0 := by
  rw [strategy_returns_nth c close signals hlen h]
  simp

theorem position_changes_nth_zero (signals : List ℝ)
    (h : 0 < signals.length) :
    nth (position_changes signals) 0 = 0 := by
  rw [nth, position_changes, diff_fillna0, List.map_ofFn, getD_ofFn_lt _ h]
  simp [Function.comp]

theorem listMin_le_of_mem : ∀ {l : List ℝ} {x : ℝ}, x ∈ l → listMin l ≤ x
  | [x], y, h => by
    simp at h
    simp [listMin, h]
  | x :: y :: l, z, h => by
    rcases List.mem_cons.1 h with rfl | h'
    · simp [listMin]
    · calc listMin (x :: y :: l) ≤ listMin (y :: l) := min_le_right _ _
        _ ≤ z := listMin_le_of_mem h'

theorem listMin_mem : ∀ {l : List ℝ}, l ≠ [] → listMin l ∈ l
  | [x], _ => by simp [listMin]
  | x :: y :: l, _ => by
    rcases le_total x (listMin (y :: l)) with h | h
    · simp [listMin, min_eq_left h]
    · have := listMin_mem (l := y :: l) (by simp)
      simp only [listMin, min_eq_right h]
      exact List.mem_cons_of_mem _ this

theorem le_listMax_of_mem : ∀ {l : List ℝ} {x : ℝ}, x ∈ l → x ≤ listMax l
  | [x], y, h => by
    simp at h
    simp [listMax, h]
  | x :: y :: l, z, h => by
    rcases List.mem_cons.1 h with rfl | h'
    · simp [listMax]
    · calc z ≤ listMax (y :: l) := le_listMax_of_mem h'
        _ ≤ listMax (x :: y :: l) := le_max_right _ _

theorem listMax_mem : ∀ {l : List ℝ}, l ≠ [] → listMax l ∈ l
  | [x], _ => by simp [listMax]
  | x :: y :: l, _ => by
    rcases le_total x (listMax (y :: l)) with h | h
    · have := listMax_mem (l := y :: l) (by simp)
      simp only [listMax, max_eq_right h]
      exact List.mem_cons_of_mem _ this
    · simp [listMax, max_eq_left h]

theorem listMax_append_singleton :
    ∀ (l : List ℝ) (a : ℝ), l ≠ [] → listMax (l ++ [a]) = max (listMax l) a
  | [x], a, _ => by simp [listMax]
  | x :: y :: l, a, _ => by
    have ih := listMax_append_singleton (y :: l) a (by simp)
    show max x (listMax ((y :: l) ++ [a])) = max (max x (listMax (y :: l))) a
    rw [ih, max_assoc]

theorem running_max_nth (xs : List ℝ) {i : ℕ} (hi : i < xs.length) :
    nth (running_max xs) i = listMax (xs.take (i + 1)) := by
  rw [nth, running_max, getD_ofFn_lt _ hi]

theorem diff_fillna0_cons (x : ℝ) (xs : List ℝ) :
    diff_fillna0 (x :: xs) =
      0 :: List.zipWith (fun b a => b - a) xs (x :: xs) := by
  apply List.ext_getElem
  · simp [length_diff_fillna0]
  · intro i h1 h2
    simp only [diff_fillna0, List.getElem_ofFn]
    rcases i with _ | j
    · simp
    · have hj : j < xs.length := by
        rw [length_diff_fillna0] at h1
        simpa using h1
      simp only [List.getElem_cons_succ, List.getElem_zipWith]
      rw [if_neg (Nat.succ_ne_zero j)]
      rw [List.getD_eq_getElem _ _ (show j + 1 < (x :: xs).length by simp; omega),
        Nat.succ_sub_one,
        List.getD_eq_getElem _ _ (show j < (x :: xs).length by simp; omega)]
      simp

theorem zip_diff_count (x : ℝ) (xs : List ℝ) :
    ((List.zipWith (fun b a => b - a) xs (x :: xs)).filter
        (fun d => decide (d ≠ 0))).length = change_count (x :: xs) := by
  induction xs generalizing x with
  | nil => simp [change_count]
  | cons y t ih =>
    show ((List.filter (fun d => decide (d ≠ 0))
      ((y - x) :: List.zipWith (fun b a => b - a) t (y :: t)))).length =
      change_count (x :: y :: t)
    rw [List.filter_cons, change_count]
    by_cases h : x = y
    · have hz : y - x = 0 := by rw [h]; ring
      rw [if_neg (by simp [hz]), ih y, if_pos h]
      omega
    · have hne : y - x ≠ 0 := sub_ne_zero.2 (Ne.symm h)
      rw [if_pos (by simp [hne]), List.length_cons, ih y, if_neg h]
      omega

theorem filter_diff_length (xs : List ℝ) :
    ((diff_fillna0 xs).filter (fun x => decide (x ≠ 0))).length =
      change_count xs := by
  cases xs with
  | nil => simp [diff_fillna0, change_count]
  | cons x t =>
    rw [diff_fillna0_cons, List.filter_cons]
    rw [if_neg (by simp)]
    exact zip_diff_count x t

/-! ### Claim theorems -/

/-- C2: for every augmented bar series and nonnegative cost parameters the
engine's per-bar strategy return at `t ≥ 1` is
`(close[t]/close[t-1] - 1) * signal[t-1] - |signal[t] - signal[t-1]| * (fee + slippage)`,
the position-change magnitude at `t = 0` is 0, and the equity curve is
`initial_capital` times the cumulative product of `1 + strategy_return`,
equal to `initial_capital` at `t = 0`. -/
theorem run_return_cost_and_equity
    (fee_rate slippage initial_capital : ℝ)
    (hfee : 0 ≤ fee_rate) (hslip : 0 ≤ slippage)
    (close signals : List ℝ) (hlen : signals.length = close.length)
    {t : ℕ} (ht : t < close.length) :
    (1 ≤ t →
      nth (strategy_returns (fee_rate + slippage) close signals) t =
        (nth close t / nth close (t - 1) - 1) * nth signals (t - 1) -
          |nth signals t - nth signals (t - 1)| * (fee_rate + slippage)) ∧
    nth (position_changes signals) 0 = 0 ∧
    nth (equity_curve initial_capital
        (strategy_returns (fee_rate + slippage) close signals)) t =
      initial_capital * ∏ j ∈ Finset.range (t + 1),
        (1 + nth (strategy_returns (fee_rate + slippage) close signals) j) ∧
    nth (equity_curve initial_capital
        (strategy_returns (fee_rate + slippage) close signals)) 0 =
      initial_capital := by
  have h0 : 0 < close.length := lt_of_le_of_lt (Nat.zero_le _) ht
  have hsr : t < (strategy_returns (fee_rate + slippage) close signals).length := by
    rwa [length_strategy_returns]
  have hsr0 : 0 < (strategy_returns (fee_rate + slippage) close signals).length := by
    rwa [length_strategy_returns]
  refine ⟨?_, ?_, ?_, ?_⟩
  · intro h1
    rw [strategy_returns_nth _ _ _ hlen ht, if_neg (by omega)]
  · exact position_changes_nth_zero signals (hlen ▸ h0)
  · exact equity_curve_nth _ _ hsr
  · rw [equity_curve_nth _ _ hsr0, Finset.prod_range_one,
      strategy_returns_nth_zero _ _ _ hlen h0]
    ring

/-- Witness for C2 at close `[1, 2]`, signals `[1, 1]`, fees `0.001 + 0.001`,
`t = 1`. -/
theorem run_return_cost_and_equity_witness :
    nth (strategy_returns ((1 : ℝ)/1000 + 1/1000) [1, 2] [1, 1]) 1 =
      (nth [1, 2] 1 / nth [1, 2] 0 - 1) * nth [1, 1] 0 -
        |nth [1, 1] 1 - nth [1, 1] 0| * ((1 : ℝ)/1000 + 1/1000) :=
  (run_return_cost_and_equity (1/1000) (1/1000) 1 (by norm_num) (by norm_num)
    [1, 2] [1, 1] rfl (by decide)).1 le_rfl

/-- C8: for every signal series handed to the metrics calculator together
with a non-empty return series, `total_trades` is the number of bars at
which the signal value changes between consecutive bars (the undefined
first difference treated as 0), regardless of direction. -/
theorem total_trades_counts_changes (returnsIn : List (Option ℝ))
    (equity : List ℝ) (s : List ℝ)
    (hne : (dropna returnsIn).length ≠ 0) :
    (calculate_metrics returnsIn equity (some s)).total_trades =
      change_count s := by
  simp only [calculate_metrics]
  rw [if_neg hne]
  show ((diff_fillna0 s).filter (fun x => decide (x ≠ 0))).length =
    change_count s
  exact filter_diff_length s

/-- Witness for C8: the signal series `[0,0,1,1,-1,-1,0]` yields exactly 3
trades (transitions at indices 2, 4 and 6). -/
theorem total_trades_counts_changes_witness :
    (calculate_metrics [some 0] [1]
        (some [0, 0, 1, 1, -1, -1, 0])).total_trades = 3 := by
  rw [total_trades_counts_changes _ _ _ (by simp [dropna])]
  norm_num [change_count]

/-- C6: on a non-empty realized return series every division in the metrics
calculator is guarded: zero annualized volatility gives sharpe 0, no losing
returns give profit factor `+∞`, and zero realized wins plus losses give
win rate 0. -/
theorem metrics_division_guards (returnsIn : List (Option ℝ))
    (equity : List ℝ) (signals : Option (List ℝ))
    (hne : (dropna returnsIn).length ≠ 0) :
    (sampleStd (dropna returnsIn) * Real.sqrt 365 = 0 →
      (calculate_metrics returnsIn equity signals).sharpe_ratio = 0) ∧
    (losing_returns (dropna returnsIn) = [] →
      (calculate_metrics returnsIn equity signals).profit_factor = ⊤) ∧
    ((winning_returns (dropna returnsIn)).length +
        (losing_returns (dropna returnsIn)).length = 0 →
      (calculate_metrics returnsIn equity signals).win_rate = 0) := by
  refine ⟨?_, ?_, ?_⟩
  · intro hv
    simp only [calculate_metrics]
    rw [if_neg hne]
    show (if 0 < sampleStd (dropna returnsIn) * Real.sqrt 365 then _ else 0) = 0
    rw [if_neg (by rw [hv]; exact lt_irrefl 0)]
  · intro hl
    simp only [calculate_metrics]
    rw [if_neg hne]
    show (if 0 < (if 0 < (losing_returns (dropna returnsIn)).length then
        |(losing_returns (dropna returnsIn)).sum| else 0) then _ else ⊤) = ⊤
    rw [hl]
    norm_num
  · intro hw
    simp only [calculate_metrics]
    rw [if_neg hne]
    show (if 0 < (winning_returns (dropna returnsIn)).length +
        (losing_returns (dropna returnsIn)).length then _ else 0) = 0
    rw [hw]
    norm_num

/-- Witness for C6 at the one-bar zero-return series. -/
theorem metrics_division_guards_witness :
    (sampleStd (dropna [some 0]) * Real.sqrt 365 = 0 →
      (calculate_metrics [some 0] [1] none).sharpe_ratio = 0) ∧
    (losing_returns (dropna [some 0]) = [] →
      (calculate_metrics [some 0] [1] none).profit_factor = ⊤) ∧
    ((winning_returns (dropna [some 0])).length +
        (losing_returns (dropna [some 0])).length = 0 →
      (calculate_metrics [some 0] [1] none).win_rate = 0) :=
  metrics_division_guards [some 0] [1] none (by simp [dropna])

/-- C10: on a non-empty realized return series in which every return is
exactly zero, the no-losses branch still applies: profit factor is `+∞`,
while the return-derived metrics are all zero. -/
theorem metrics_all_zero_returns (returnsIn : List (Option ℝ))
    (equity : List ℝ) (signals : Option (List ℝ))
    (hne : (dropna returnsIn).length ≠ 0)
    (hz : ∀ x ∈ dropna returnsIn, x = 0) :
    (calculate_metrics returnsIn equity signals).profit_factor = ⊤ ∧
    (calculate_metrics returnsIn equity signals).total_return = 0 ∧
    (calculate_metrics returnsIn equity signals).annual_return = 0 ∧
    (calculate_metrics returnsIn equity signals).sharpe_ratio = 0 ∧
    (calculate_metrics returnsIn equity signals).win_rate = 0 ∧
    (calculate_metrics returnsIn equity signals).avg_trade_return = 0 := by
  have hwin : winning_returns (dropna returnsIn) = [] := by
    rw [winning_returns, List.filter_eq_nil_iff]
    intro x hx
    simp [hz x hx]
  have hlos : losing_returns (dropna returnsIn) = [] := by
    rw [losing_returns, List.filter_eq_nil_iff]
    intro x hx
    simp [hz x hx]
  have hnz : nonzero_returns (dropna returnsIn) = [] := by
    rw [nonzero_returns, List.filter_eq_nil_iff]
    intro x hx
    simp [hz x hx]
  have htot : ((dropna returnsIn).map (fun r => 1 + r)).prod - 1 = 0 := by
    rw [List.prod_eq_one]
    · ring
    · intro x hx
      rcases List.mem_map.1 hx with ⟨y, hy, rfl⟩
      rw [hz y hy]
      ring
  have hstd : sampleStd (dropna returnsIn) = 0 := by
    rw [sampleStd]
    have hm : mean (dropna returnsIn) = 0 := by
      rw [mean]
      have : (dropna returnsIn).sum = 0 := List.sum_eq_zero hz
      rw [this, zero_div]
    have : ((dropna returnsIn).map (fun x => (x - mean (dropna returnsIn)) ^ 2)).sum = 0 := by
      apply List.sum_eq_zero
      intro x hx
      rcases List.mem_map.1 hx with ⟨y, hy, rfl⟩
      rw [hz y hy, hm]
      ring
    rw [this, zero_div, Real.sqrt_zero]
  refine ⟨?_, ?_, ?_, ?_, ?_, ?_⟩
  · simp only [calculate_metrics]
    rw [if_neg hne]
    show (if 0 < (if 0 < (losing_returns (dropna returnsIn)).length then
        |(losing_returns (dropna returnsIn)).sum| else 0) then _ else ⊤) = ⊤
    rw [hlos]
    norm_num
  · simp only [calculate_metrics]
    rw [if_neg hne]
    exact htot
  · simp only [calculate_metrics]
    rw [if_neg hne]
    show (if 0 < (dropna returnsIn).length ∧
        -1 < ((dropna returnsIn).map (fun r => 1 + r)).prod - 1 then
        (1 + (((dropna returnsIn).map (fun r => 1 + r)).prod - 1)) ^
          ((365 : ℝ) / (dropna returnsIn).length) - 1
      else 0) = 0
    rw [if_pos ⟨Nat.pos_of_ne_zero hne, by rw [htot]; norm_num⟩, htot]
    rw [show (1 : ℝ) + 0 = 1 by ring, Real.one_rpow]
    ring
  · simp only [calculate_metrics]
    rw [if_neg hne]
    show (if 0 < sampleStd (dropna returnsIn) * Real.sqrt 365 then _ else 0) = 0
    rw [if_neg (by rw [hstd, zero_mul]; exact lt_irrefl 0)]
  · simp only [calculate_metrics]
    rw [if_neg hne]
    show (if 0 < (winning_returns (dropna returnsIn)).length +
        (losing_returns (dropna returnsIn)).length then _ else 0) = 0
    rw [hwin, hlos]
    norm_num
  · simp only [calculate_metrics]
    rw [if_neg hne]
    show (if (nonzero_returns (dropna returnsIn)).length ≠ 0 then
        mean (nonzero_returns (dropna returnsIn)) else 0) = 0
    rw [hnz]
    norm_num

/-- Witness for C10 at the one-bar zero-return series. -/
theorem metrics_all_zero_returns_witness :
    (calculate_metrics [some 0] [1] none).profit_factor = ⊤ ∧
    (calculate_metrics [some 0] [1] none).total_return = 0 ∧
    (calculate_metrics [some 0] [1] none).annual_return = 0 ∧
    (calculate_metrics [some 0] [1] none).sharpe_ratio = 0 ∧
    (calculate_metrics [some 0] [1] none).win_rate = 0 ∧
    (calculate_metrics [some 0] [1] none).avg_trade_return = 0 :=
  metrics_all_zero_returns [some 0] [1] none (by simp [dropna])
    (by simp [dropna])

/-- C1 counterexample: with the engine's default costs
(`total_cost = 0.002`), the signal series `[1,1]` and `[1,0]` over closes
`[1,2]` agree at every index except 1, yet the strategy return credited at
bar 1 differs, because the transition-cost term `|signal[1] - signal[0]|`
depends on `signal[1]`. -/
theorem lag_invariant_counterexample :
    (∀ i : ℕ, i ≠ 1 → nth [(1 : ℝ), 1] i = nth [(1 : ℝ), 0] i) ∧
    nth (strategy_returns ((1 : ℝ)/500) [1, 2] [1, 1]) 1 ≠
      nth (strategy_returns ((1 : ℝ)/500) [1, 2] [1, 0]) 1 := by
  constructor
  · intro i hi
    match i, hi with
    | 0, _ => rfl
    | (n + 2), _ => rfl
  · rw [strategy_returns_nth ((1 : ℝ)/500) [1, 2] [1, 1] rfl (by norm_num),
      strategy_returns_nth ((1 : ℝ)/500) [1, 2] [1, 0] rfl (by norm_num)]
    norm_num [nth]

/-- C1 amended: changing `signal[t]` alone changes `strategy_return[t]`
only through the transition-cost term: two signal series that agree at
`t-1` give the same gross component
`strategy_return[t] + |signal[t] - signal[t-1]| * total_cost`
at bar `t` (hence the same `strategy_return[t]` whenever `total_cost = 0`). -/
theorem lag_invariant_gross (total_cost : ℝ) (close s1 s2 : List ℝ)
    (h1 : s1.length = close.length) (h2 : s2.length = close.length)
    {t : ℕ} (ht : t < close.length)
    (hprev : nth s1 (t - 1) = nth s2 (t - 1)) :
    nth (strategy_returns total_cost close s1) t +
      |nth s1 t - nth s1 (t - 1)| * total_cost =
    nth (strategy_returns total_cost close s2) t +
      |nth s2 t - nth s2 (t - 1)| * total_cost := by
  rw [strategy_returns_nth _ _ _ h1 ht, strategy_returns_nth _ _ _ h2 ht]
  by_cases h0 : t = 0
  · subst h0
    simp [hprev]
  · rw [if_neg h0, if_neg h0, hprev]
    ring

/-- Witness for the amended C1 at closes `[1,2]`, signals `[1,1]` versus
`[1,0]`, `t = 1`. -/
theorem lag_invariant_gross_witness :
    nth (strategy_returns ((1 : ℝ)/500) [1, 2] [1, 1]) 1 +
      |nth [(1 : ℝ), 1] 1 - nth [(1 : ℝ), 1] 0| * ((1 : ℝ)/500) =
    nth (strategy_returns ((1 : ℝ)/500) [1, 2] [1, 0]) 1 +
      |nth [(1 : ℝ), 0] 1 - nth [(1 : ℝ), 0] 0| * ((1 : ℝ)/500) :=
  lag_invariant_gross (1/500) [1, 2] [1, 1] [1, 0] rfl rfl
    (by norm_num) rfl

theorem sr_nth_zero (c : ℝ) (close signals : List ℝ)
    (h : 0 < close.length) :
    nth (strategy_returns c close signals) 0 = 0 := by
  have hraw : 0 < (strategy_returns_raw c close signals).length := by
    rwa [length_strategy_returns_raw]
  rw [nth, strategy_returns, fillna0]
  rw [List.getD_eq_getElem _ _ (by simpa using hraw), List.getElem_map]
  have hpc : (pct_change close).getD 0 none = none := by
    rw [pct_change, getD_ofFn_lt' _ h, if_pos rfl]
  have hz : (strategy_returns_raw c close signals)[0] = none := by
    simp only [strategy_returns_raw, List.getElem_ofFn]
    show ((pct_change close).getD 0 none).bind _ = none
    rw [hpc]
    rfl
  rw [hz]
  rfl

theorem drawdown_core (equity : List ℝ) (hne : equity ≠ [])
    (h0 : 0 < nth equity 0) :
    listMin (List.zipWith (fun e p => (e - p) / p) equity
      (running_max equity)) ≤ 0 ∧
    (listMin (List.zipWith (fun e p => (e - p) / p) equity
        (running_max equity)) = 0 ↔
      ∀ i, i + 1 < equity.length →
        nth equity i ≤ nth equity (i + 1)) := by
  have hL : 0 < equity.length := List.length_pos.2 hne
  set dd := List.zipWith (fun e p => (e - p) / p) equity (running_max equity)
    with hdd
  have hrm : (running_max equity).length = equity.length := by
    simp [running_max]
  have hlen : dd.length = equity.length := by
    rw [hdd, List.length_zipWith, hrm, min_self]
  have hddi : ∀ i, i < equity.length → nth dd i =
      (nth equity i - listMax (equity.take (i + 1))) /
        listMax (equity.take (i + 1)) := by
    intro i hi
    rw [nth, List.getD_eq_getElem _ _ (hlen ▸ hi)]
    simp only [hdd, List.getElem_zipWith]
    have h1 : (running_max equity)[i] =
        listMax (equity.take (i + 1)) := by
      simp only [running_max, List.getElem_ofFn]
    rw [h1, nth, List.getD_eq_getElem _ _ hi]
  have hpk_pos : ∀ i, i < equity.length →
      0 < listMax (equity.take (i + 1)) := by
    intro i hi
    have h00 : 0 < (equity.take (i + 1)).length := by
      simp
      omega
    have hmem : nth equity 0 ∈ equity.take (i + 1) := by
      have ht : (equity.take (i + 1))[0] = equity[0] :=
        List.getElem_take _
      rw [nth, List.getD_eq_getElem _ _ hL, ← ht]
      exact List.getElem_mem _
    exact lt_of_lt_of_le h0 (le_listMax_of_mem hmem)
  have he_le : ∀ i, i < equity.length →
      nth equity i ≤ listMax (equity.take (i + 1)) := by
    intro i hi
    apply le_listMax_of_mem
    have hi' : i < (equity.take (i + 1)).length := by
      simp
      omega
    have ht : (equity.take (i + 1))[i] = equity[i] :=
      List.getElem_take _
    rw [nth, List.getD_eq_getElem _ _ hi, ← ht]
    exact List.getElem_mem _
  have hdd_le : ∀ i, i < equity.length → nth dd i ≤ 0 := by
    intro i hi
    rw [hddi i hi]
    apply div_nonpos_iff.2
    right
    exact ⟨sub_nonpos.2 (he_le i hi), le_of_lt (hpk_pos i hi)⟩
  have hdd_ne : dd ≠ [] := List.ne_nil_of_length_pos (hlen ▸ hL)
  have hmin_le : listMin dd ≤ 0 := by
    obtain ⟨i, hi, hEq⟩ := List.mem_iff_getElem.1 (listMin_mem hdd_ne)
    have hnth : nth dd i = dd[i] := List.getD_eq_getElem _ _ hi
    calc listMin dd = dd[i] := hEq.symm
      _ = nth dd i := hnth.symm
      _ ≤ 0 := hdd_le i (hlen ▸ hi)
  have hstep : ∀ i, i + 1 < equity.length →
      listMax (equity.take (i + 2)) =
        max (listMax (equity.take (i + 1))) (nth equity (i + 1)) := by
    intro i hi
    have h1 : equity.take (i + 2) =
        equity.take (i + 1) ++ [equity[i + 1]] := by
      rw [List.take_succ, List.getElem?_eq_getElem hi]
      rfl
    have h2 : equity.take (i + 1) ≠ [] := by
      apply List.ne_nil_of_length_pos
      simp
      omega
    rw [h1, listMax_append_singleton _ _ h2, nth,
      List.getD_eq_getElem _ _ hi]
  refine ⟨hmin_le, ?_, ?_⟩
  · intro h i hi
    have hz : ∀ j, j < equity.length → nth dd j = 0 := by
      intro j hj
      have hle := hdd_le j hj
      have hge : listMin dd ≤ nth dd j := by
        have hj' : j < dd.length := hlen ▸ hj
        have hnth : nth dd j = dd[j] := List.getD_eq_getElem _ _ hj'
        rw [hnth]
        exact listMin_le_of_mem (List.getElem_mem _)
      rw [h] at hge
      linarith
    have hep : ∀ j, j < equity.length →
        nth equity j = listMax (equity.take (j + 1)) := by
      intro j hj
      have hzz := hz j hj
      rw [hddi j hj] at hzz
      rcases div_eq_zero_iff.1 hzz with hnum | hden
      · exact sub_eq_zero.1 hnum
      · exact absurd hden (ne_of_gt (hpk_pos j hj))
    calc nth equity i = listMax (equity.take (i + 1)) := hep i (by omega)
      _ ≤ max (listMax (equity.take (i + 1))) (nth equity (i + 1)) :=
          le_max_left _ _
      _ = listMax (equity.take (i + 2)) := (hstep i hi).symm
      _ = nth equity (i + 1) := (hep (i + 1) hi).symm
  · intro hmono
    have hep : ∀ j, j < equity.length →
        listMax (equity.take (j + 1)) = nth equity j := by
      intro j
      induction j with
      | zero =>
        intro _
        have h1 : equity.take 1 = [equity[0]] := by
          rw [List.take_succ, List.getElem?_eq_getElem hL]
          rfl
        rw [h1, nth, List.getD_eq_getElem _ _ hL]
        rfl
      | succ k ih =>
        intro hj
        rw [hstep k hj, ih (by omega), max_eq_right (hmono k hj)]
    have hz : ∀ j, j < equity.length → nth dd j = 0 := by
      intro j hj
      rw [hddi j hj, hep j hj]
      rw [sub_self, zero_div]
    obtain ⟨i, hi, hEq⟩ := List.mem_iff_getElem.1 (listMin_mem hdd_ne)
    have hnth : nth dd i = dd[i] := List.getD_eq_getElem _ _ hi
    calc listMin dd = dd[i] := hEq.symm
      _ = nth dd i := hnth.symm
      _ = 0 := hz i (hlen ▸ hi)

/-- C7: for every backtest run with positive initial capital the maximum
drawdown is at most 0, and it equals 0 if and only if the equity curve is
non-decreasing throughout. -/
theorem run_max_drawdown_bound (total_cost initial_capital : ℝ)
    (hcap : 0 < initial_capital) (close : List ℝ) (hne : close ≠ [])
    (strategy : List ℝ → List ℝ) :
    (run total_cost initial_capital close strategy).metrics.max_drawdown ≤ 0 ∧
    ((run total_cost initial_capital close strategy).metrics.max_drawdown = 0 ↔
      ∀ i, i + 1 < close.length →
        nth (run total_cost initial_capital close strategy).equity i ≤
          nth (run total_cost initial_capital close strategy).equity (i + 1)) := by
  have hclose : 0 < close.length := List.length_pos.2 hne
  set sr := strategy_returns total_cost close (strategy close) with hsr
  set eq := equity_curve initial_capital sr with heqd
  have hsrlen : sr.length = close.length := length_strategy_returns _ _ _
  have heqlen : eq.length = close.length := by
    rw [heqd, length_equity_curve, hsrlen]
  have heqne : eq ≠ [] := List.ne_nil_of_length_pos (heqlen ▸ hclose)
  have hsr0 : 0 < sr.length := hsrlen ▸ hclose
  have h0 : nth eq 0 = initial_capital := by
    rw [heqd, equity_curve_nth _ _ hsr0, Finset.prod_range_one, hsr,
      sr_nth_zero _ _ _ hclose]
    ring
  have hcore := drawdown_core eq heqne (by rw [h0]; exact hcap)
  rw [heqlen] at hcore
  have hrun_eq : (run total_cost initial_capital close strategy).equity = eq :=
    rfl
  have hmd : (run total_cost initial_capital close strategy).metrics.max_drawdown =
      listMin (List.zipWith (fun e p => (e - p) / p) eq (running_max eq)) := by
    simp only [run, calculate_metrics, dropna_map_some]
    rw [← hsr, ← heqd]
    rw [if_neg (by omega)]
  rw [hrun_eq, hmd]
  exact hcore

/-- C4: walk_forward splits the bars at `floor(len * train_ratio)` into a
train prefix and a test suffix that cover all bars in order without
overlap; grid search runs only on the train prefix, and the test suffix is
evaluated exactly once, with the parameters of the single best
train-selected row. -/
theorem walk_forward_split {P : Type} (total_cost initial_capital : ℝ)
    (strategySignal : P → List ℝ → List ℝ) (close : List ℝ)
    (combos : List P) (key : SummaryRow P → ℝ) (train_ratio : ℝ)
    (h0 : 0 < train_ratio) (h1 : train_ratio < 1) :
    close.take (split_idx close.length train_ratio) ++
      close.drop (split_idx close.length train_ratio) = close ∧
    (close.take (split_idx close.length train_ratio)).length =
      split_idx close.length train_ratio ∧
    (close.drop (split_idx close.length train_ratio)).length =
      close.length - split_idx close.length train_ratio ∧
    (∀ p res,
      walk_forward total_cost initial_capital strategySignal close combos key
          train_ratio = some (p, res) →
      ∃ best rest,
        engine_grid_search total_cost initial_capital strategySignal
          (close.take (split_idx close.length train_ratio)) combos key =
            best :: rest ∧
        p = best.params ∧
        res = run total_cost initial_capital
          (close.drop (split_idx close.length train_ratio))
          (strategySignal best.params)) := by
  have hk : split_idx close.length train_ratio ≤ close.length := by
    rw [split_idx]
    have hle : (close.length : ℝ) * train_ratio ≤ (close.length : ℝ) :=
      mul_le_of_le_one_right (Nat.cast_nonneg _) (le_of_lt h1)
    have hfl : ⌊(close.length : ℝ) * train_ratio⌋ ≤ (close.length : ℤ) := by
      calc ⌊(close.length : ℝ) * train_ratio⌋ ≤ ⌊(close.length : ℝ)⌋ :=
            Int.floor_le_floor hle
        _ = (close.length : ℤ) := Int.floor_natCast _
    exact Int.toNat_le.2 hfl
  refine ⟨List.take_append_drop _ _, ?_, List.length_drop _ _, ?_⟩
  · rw [List.length_take]
    exact min_eq_left hk
  · intro p res hw
    simp only [walk_forward] at hw
    rcases hgs : engine_grid_search total_cost initial_capital strategySignal
        (close.take (split_idx close.length train_ratio)) combos key with
      _ | ⟨best, rest⟩
    · rw [hgs] at hw
      exact absurd hw (by simp)
    · rw [hgs] at hw
      simp only [Option.some.injEq, Prod.mk.injEq] at hw
      exact ⟨best, rest, rfl, hw.1.symm, hw.2.symm⟩

/-- Witness for C4: `train_ratio = 0.5` over 100 bars gives a 50-bar train
prefix and a 50-bar test suffix. -/
theorem walk_forward_split_witness :
    split_idx (List.replicate 100 (1 : ℝ)).length (1/2) = 50 ∧
    ((List.replicate 100 (1 : ℝ)).take
      (split_idx (List.replicate 100 (1 : ℝ)).length (1/2))).length = 50 ∧
    ((List.replicate 100 (1 : ℝ)).drop
      (split_idx (List.replicate 100 (1 : ℝ)).length (1/2))).length = 50 := by
  have hcast : ((List.replicate 100 (1 : ℝ)).length : ℝ) * (1/2) =
      ((50 : ℕ) : ℝ) := by
    rw [List.length_replicate]
    norm_num
  have hk : split_idx (List.replicate 100 (1 : ℝ)).length (1/2) = 50 := by
    rw [split_idx, hcast, Int.floor_natCast]
    rfl
  have h := walk_forward_split (P := Unit) 0 1 (fun _ _ => [])
    (List.replicate 100 (1 : ℝ)) [] (fun row => row.metrics.sharpe_ratio)
    (1/2) one_half_pos one_half_lt_one
  refine ⟨hk, ?_, ?_⟩
  · rw [h.2.1, hk]
  · rw [h.2.2.1, hk, List.length_replicate]

theorem filter_key_insertionSort {α : Type} (key : α → ℝ) (v : ℝ)
    (l : List α) :
    (List.insertionSort (fun a b => key a ≤ key b) l).filter
      (fun a => decide (key a = v)) =
    l.filter (fun a => decide (key a = v)) := by
  have hmem : ∀ a ∈ l.filter (fun a => decide (key a = v)), key a = v := by
    intro a ha
    have := (List.mem_filter.1 ha).2
    simpa using this
  have hpair : (l.filter (fun a => decide (key a = v))).Pairwise
      (fun a b => key a ≤ key b) := by
    apply List.pairwise_of_forall_mem_list
    intro a ha b hb
    rw [hmem a ha, hmem b hb]
  have hsub : List.Sublist (l.filter (fun a => decide (key a = v)))
      (List.insertionSort (fun a b => key a ≤ key b) l) :=
    List.sublist_insertionSort hpair (List.filter_sublist l)
  have hself : (l.filter (fun a => decide (key a = v))).filter
      (fun a => decide (key a = v)) =
      l.filter (fun a => decide (key a = v)) := by
    rw [List.filter_eq_self]
    intro a ha
    exact (List.mem_filter.1 ha).2
  have hsub2 : List.Sublist (l.filter (fun a => decide (key a = v)))
      ((List.insertionSort (fun a b => key a ≤ key b) l).filter
        (fun a => decide (key a = v))) := by
    have h := hsub.filter (fun a => decide (key a = v))
    rwa [hself] at h
  have hperm : List.Perm
      ((List.insertionSort (fun a b => key a ≤ key b) l).filter
        (fun a => decide (key a = v)))
      (l.filter (fun a => decide (key a = v))) :=
    (List.perm_insertionSort _ l).filter _
  exact (hsub2.eq_of_length hperm.length_eq.symm).symm

/-- C5: the grid-search table is sorted in descending order by the
requested metric column - a permutation of the evaluated rows whose key
column is non-increasing row to row - and rows with equal metric values
appear in the same relative order as the parameter combinations were
generated (stable sort, ties broken by input order): for every key value,
filtering the table to that value gives exactly the evaluated rows with
that value, in generation order. -/
theorem grid_search_sorted_desc {P : Type} (combos : List P)
    (evalCombo : P → Option (SummaryRow P)) (key : SummaryRow P → ℝ) :
    (grid_search combos evalCombo key).Perm (combos.filterMap evalCombo) ∧
    (grid_search combos evalCombo key).Pairwise
      (fun a b => key b ≤ key a) ∧
    ∀ v : ℝ, (grid_search combos evalCombo key).filter
        (fun row => decide (key row = v)) =
      (combos.filterMap evalCombo).filter
        (fun row => decide (key row = v)) := by
  haveI : IsTotal (SummaryRow P) (fun a b => key a ≤ key b) :=
    ⟨fun a b => le_total (key a) (key b)⟩
  haveI : IsTrans (SummaryRow P) (fun a b => key a ≤ key b) :=
    ⟨fun a b c hab hbc => le_trans hab hbc⟩
  refine ⟨?_, ?_, ?_⟩
  · exact (List.reverse_perm _).trans
      ((List.perm_insertionSort _ _).trans (List.reverse_perm _))
  · have hs := List.sorted_insertionSort (fun a b => key a ≤ key b)
      (combos.filterMap evalCombo).reverse
    rw [grid_search, sort_values_desc, List.pairwise_reverse]
    exact hs
  · intro v
    rw [grid_search, sort_values_desc, List.filter_reverse,
      filter_key_insertionSort, List.filter_reverse, List.reverse_reverse]

theorem ema_const_two (p : ℕ) : ema [(1 : ℝ), 1] p = [1, 1] := by
  apply List.ext_getElem
  · simp [ema]
  · intro i h1 h2
    simp only [ema, List.getElem_ofFn]
    have h2' : i < 2 := by simpa using h2
    interval_cases i
    · rfl
    · show ewm_rec (2 / ((p : ℝ) + 1)) (fun t => [(1 : ℝ), 1].getD t 0) 1 = 1
      simp [ewm_rec]

theorem simple_cross_const (sp : ℕ) :
    simple_ema_cross_signal sp 20 [(1 : ℝ), 1] = [0, 0] := by
  apply List.ext_getElem
  · simp [simple_ema_cross_signal]
  · intro i h1 h2
    simp only [simple_ema_cross_signal, List.getElem_ofFn,
      ema_const_two sp, ema_const_two 20]
    have h2' : i < 2 := by simpa using h2
    interval_cases i <;> norm_num

/-- Concrete trace of the stable descending tie order: the grid
`{"short_period": [5, 10]}` over the constant closes `[1, 1]` produces two
rows with equal sharpe ratio, and the table lists them as `[5, 10]` - the
generation order. -/
theorem grid_search_tie_input_order :
    (engine_grid_search ((1 : ℝ)/500) 1
        (fun p close => simple_ema_cross_signal p 20 close) [1, 1] [5, 10]
        (fun row => row.metrics.sharpe_ratio)).map (fun row => row.params) =
      [5, 10] ∧
    (run_summary ((1 : ℝ)/500) 1
        (fun p close => simple_ema_cross_signal p 20 close) [1, 1]
        5).metrics.sharpe_ratio =
      (run_summary ((1 : ℝ)/500) 1
        (fun p close => simple_ema_cross_signal p 20 close) [1, 1]
        10).metrics.sharpe_ratio := by
  have hM : ∀ p : ℕ, (run ((1 : ℝ)/500) 1 [1, 1]
      ((fun p close => simple_ema_cross_signal p 20 close) p)).metrics =
      (run ((1 : ℝ)/500) 1 [1, 1] (fun _ => ([0, 0] : List ℝ))).metrics := by
    intro p
    simp only [run, simple_cross_const]
  have hkey : (run_summary ((1 : ℝ)/500) 1
      (fun p close => simple_ema_cross_signal p 20 close) [1, 1]
      5).metrics.sharpe_ratio =
      (run_summary ((1 : ℝ)/500) 1
        (fun p close => simple_ema_cross_signal p 20 close) [1, 1]
        10).metrics.sharpe_ratio := by
    simp only [run_summary]
    rw [hM 5, hM 10]
  refine ⟨?_, hkey⟩
  have hins : List.insertionSort
      (fun a b : SummaryRow ℕ =>
        a.metrics.sharpe_ratio ≤ b.metrics.sharpe_ratio)
      [run_summary ((1 : ℝ)/500) 1
          (fun p close => simple_ema_cross_signal p 20 close) [1, 1] 10,
        run_summary ((1 : ℝ)/500) 1
          (fun p close => simple_ema_cross_signal p 20 close) [1, 1] 5] =
      [run_summary ((1 : ℝ)/500) 1
          (fun p close => simple_ema_cross_signal p 20 close) [1, 1] 10,
        run_summary ((1 : ℝ)/500) 1
          (fun p close => simple_ema_cross_signal p 20 close) [1, 1] 5] :=
    List.orderedInsert_of_le _ _ (le_of_eq hkey.symm)
  show ((List.insertionSort
      (fun a b : SummaryRow ℕ =>
        a.metrics.sharpe_ratio ≤ b.metrics.sharpe_ratio)
      [run_summary ((1 : ℝ)/500) 1
          (fun p close => simple_ema_cross_signal p 20 close) [1, 1] 10,
        run_summary ((1 : ℝ)/500) 1
          (fun p close => simple_ema_cross_signal p 20 close) [1, 1]
          5]).reverse).map (fun row => row.params) = [5, 10]
  rw [hins]
  rfl

/-- C9: the filtered crossover forces the base crossover signal from +1 to
0 at exactly those bars where some enabled filter fails (trend filter:
close above the trend EMA; momentum filter: RSI above the threshold); a
disabled filter imposes no constraint; bars whose base signal is not +1 -
in particular the -1 bars - are never changed. -/
theorem ema_cross_filters (p : EMACrossParams) (close : List ℝ)
    (i : ℕ) (hi : i < close.length) :
    (nth (ema_cross_base p close) i = 1 →
      nth (ema_cross_signal p close) i =
        if (p.use_trend_filter →
              close.getD i 0 > (ema close p.trend_period).getD i 0) ∧
            (p.use_rsi_filter →
              rsi_above close p.rsi_period p.rsi_threshold i) then 1
        else 0) ∧
    (nth (ema_cross_base p close) i ≠ 1 →
      nth (ema_cross_signal p close) i = nth (ema_cross_base p close) i) ∧
    (nth (ema_cross_base p close) i = -1 →
      nth (ema_cross_signal p close) i = -1) := by
  have hout : nth (ema_cross_signal p close) i =
      (let s0 := nth (ema_cross_base p close) i
       let s1 := if p.use_trend_filter ∧ s0 = 1 ∧
          ¬(close.getD i 0 > (ema close p.trend_period).getD i 0) then 0
        else s0
       if p.use_rsi_filter ∧ s1 = 1 ∧
          ¬ rsi_above close p.rsi_period p.rsi_threshold i then 0
       else s1) := by
    rw [nth, ema_cross_signal, getD_ofFn_lt _ hi]
    rfl
  have key : ∀ (ut ur : Bool) (tp rp : Prop) (b : ℝ),
      (b = 1 →
        (if ur ∧ (if ut ∧ b = 1 ∧ ¬tp then (0 : ℝ) else b) = 1 ∧ ¬rp
            then (0 : ℝ)
         else (if ut ∧ b = 1 ∧ ¬tp then 0 else b)) =
          if (ut → tp) ∧ (ur → rp) then 1 else 0) ∧
      (b ≠ 1 →
        (if ur ∧ (if ut ∧ b = 1 ∧ ¬tp then (0 : ℝ) else b) = 1 ∧ ¬rp
            then (0 : ℝ)
         else (if ut ∧ b = 1 ∧ ¬tp then 0 else b)) = b) := by
    intro ut ur tp rp b
    constructor
    · intro h1
      subst h1
      by_cases hut : (ut : Prop) <;> by_cases htp : tp <;>
        by_cases hur : (ur : Prop) <;> by_cases hrp : rp <;>
        simp [hut, htp, hur, hrp]
    · intro h1
      simp [h1]
  have hkeep : nth (ema_cross_base p close) i ≠ 1 →
      nth (ema_cross_signal p close) i = nth (ema_cross_base p close) i := by
    intro h1
    rw [hout]
    exact (key p.use_trend_filter p.use_rsi_filter _ _ _).2 h1
  refine ⟨?_, hkeep, ?_⟩
  · intro h1
    rw [hout]
    exact (key p.use_trend_filter p.use_rsi_filter _ _ _).1 h1
  · intro hm1
    have hne : nth (ema_cross_base p close) i ≠ 1 := by
      rw [hm1]
      norm_num
    rw [hkeep hne, hm1]

/-- Witness for C9 at the default parameters over a one-bar series. -/
theorem ema_cross_filters_witness :
    (nth (ema_cross_base ⟨5, 20, 60, 14, 50, .true, .true⟩ [(1 : ℝ)]) 0 = 1 →
      nth (ema_cross_signal ⟨5, 20, 60, 14, 50, .true, .true⟩ [(1 : ℝ)]) 0 =
        if (Bool.true = true →
              [(1 : ℝ)].getD 0 0 > (ema [(1 : ℝ)] 60).getD 0 0) ∧
            (Bool.true = true → rsi_above [(1 : ℝ)] 14 50 0) then 1
        else 0) ∧
    (nth (ema_cross_base ⟨5, 20, 60, 14, 50, .true, .true⟩ [(1 : ℝ)]) 0 ≠ 1 →
      nth (ema_cross_signal ⟨5, 20, 60, 14, 50, .true, .true⟩ [(1 : ℝ)]) 0 =
        nth (ema_cross_base ⟨5, 20, 60, 14, 50, .true, .true⟩ [(1 : ℝ)]) 0) ∧
    (nth (ema_cross_base ⟨5, 20, 60, 14, 50, .true, .true⟩ [(1 : ℝ)]) 0 = -1 →
      nth (ema_cross_signal ⟨5, 20, 60, 14, 50, .true, .true⟩ [(1 : ℝ)]) 0 =
        -1) :=
  ema_cross_filters ⟨5, 20, 60, 14, 50, .true, .true⟩ [(1 : ℝ)] 0
    (by simp)

/-- Witness for C7 at closes `[1,2]`, constant long signal. -/
theorem run_max_drawdown_bound_witness :
    (run ((1 : ℝ)/500) 1 [1, 2] (fun _ => [1, 1])).metrics.max_drawdown ≤ 0 ∧
    ((run ((1 : ℝ)/500) 1 [1, 2] (fun _ => [1, 1])).metrics.max_drawdown = 0 ↔
      ∀ i, i + 1 < ([1, 2] : List ℝ).length →
        nth (run ((1 : ℝ)/500) 1 [1, 2] (fun _ => [1, 1])).equity i ≤
          nth (run ((1 : ℝ)/500) 1 [1, 2] (fun _ => [1, 1])).equity (i + 1)) :=
  run_max_drawdown_bound (1/500) 1 zero_lt_one [1, 2] (by simp)
    (fun _ => [1, 1])

theorem sr_concrete :
    strategy_returns ((1 : ℝ)/500) [1, 2] [1, 1] = [0, 1] := by
  apply List.ext_getElem
  · simp [length_strategy_returns]
  · intro i h1 h2
    have h2' : i < 2 := by simpa using h2
    have hi : i < ([1, 2] : List ℝ).length := by simpa using h2'
    have h := strategy_returns_nth ((1 : ℝ)/500) [1, 2] [1, 1] rfl hi
    rw [nth, List.getD_eq_getElem _ _ h1] at h
    rw [h]
    interval_cases i
    · norm_num
    · norm_num [nth]

theorem sr_raw_concrete :
    strategy_returns_raw ((1 : ℝ)/500) [1, 2] [1, 1] = [none, some 1] := by
  apply List.ext_getElem
  · simp [length_strategy_returns_raw]
  · intro i h1 h2
    have h2' : i < 2 := by simpa using h2
    have hi : i < ([1, 2] : List ℝ).length := by simpa using h2'
    have h := strategy_returns_raw_getD ((1 : ℝ)/500) [1, 2] [1, 1] rfl hi
    rw [List.getD_eq_getElem _ _ h1] at h
    rw [h]
    interval_cases i
    · norm_num
    · norm_num [nth]

/-- C3 counterexample: over closes `[1,2]` with constant long signal the raw
strategy-return series has exactly one realized (defined) observation, yet
the engine's annual return is `2^(365/2) - 1`, not the
`(1 + total_return)^(365/1) - 1` the claim's realized-count `n` demands,
because the zero-filled series reaches the metrics calculator. -/
theorem annual_return_not_realized_count :
    dropna (strategy_returns_raw ((1 : ℝ)/500) [1, 2] [1, 1]) = [1] ∧
    (run ((1 : ℝ)/500) 1 [1, 2] (fun _ => [1, 1])).metrics.annual_return ≠
      (1 + (run ((1 : ℝ)/500) 1 [1, 2]
        (fun _ => [1, 1])).metrics.total_return) ^ ((365 : ℝ) / (1 : ℝ)) - 1 := by
  constructor
  · rw [sr_raw_concrete]
    simp [dropna]
  · have htot : (run ((1 : ℝ)/500) 1 [1, 2]
        (fun _ => [1, 1])).metrics.total_return = 1 := by
      simp only [run, sr_concrete, dropna_map_some, calculate_metrics]
      rw [if_neg (by norm_num)]
      show ((([0, 1] : List ℝ)).map (fun r => 1 + r)).prod - 1 = 1
      norm_num
    have hann : (run ((1 : ℝ)/500) 1 [1, 2]
        (fun _ => [1, 1])).metrics.annual_return =
        (2 : ℝ) ^ ((365 : ℝ) / 2) - 1 := by
      simp only [run, sr_concrete, dropna_map_some, calculate_metrics]
      rw [if_neg (by norm_num)]
      show (if 0 < ([0, 1] : List ℝ).length ∧
          -1 < ((([0, 1] : List ℝ)).map (fun r => 1 + r)).prod - 1 then
          (1 + (((([0, 1] : List ℝ)).map (fun r => 1 + r)).prod - 1)) ^
            ((365 : ℝ) / (([0, 1] : List ℝ).length : ℝ)) - 1
        else 0) = (2 : ℝ) ^ ((365 : ℝ) / 2) - 1
      rw [if_pos (by constructor <;> norm_num)]
      norm_num
    rw [htot, hann]
    have hlt : (2 : ℝ) ^ ((365 : ℝ) / 2) < (2 : ℝ) ^ ((365 : ℝ) / 1) := by
      rw [Real.rpow_lt_rpow_left_iff one_lt_two]
      norm_num
    rw [show (1 : ℝ) + 1 = 2 by norm_num]
    intro heq
    rw [sub_left_inj] at heq
    exact absurd heq (ne_of_lt hlt)

/-- C3 amended: the engine zero-fills the strategy returns (engine.py line
91) before handing them to the metrics calculator, so `dropna` there
removes nothing and the annualization count `n` is the full bar count, not
the number of realized observations:
`annual_return = (1 + total_return)^(365/len(bars)) - 1`
whenever `total_return > -1`, else 0. -/
theorem run_annual_return_full_bar_count (total_cost initial_capital : ℝ)
    (close : List ℝ) (hne : close ≠ []) (strategy : List ℝ → List ℝ) :
    (run total_cost initial_capital close strategy).metrics.annual_return =
      if -1 < ((strategy_returns total_cost close (strategy close)).map
          (fun r => 1 + r)).prod - 1 then
        (1 + (((strategy_returns total_cost close (strategy close)).map
          (fun r => 1 + r)).prod - 1)) ^ ((365 : ℝ) / (close.length : ℝ)) - 1
      else 0 := by
  have hdays := length_strategy_returns total_cost close (strategy close)
  have hpos : 0 < (strategy_returns total_cost close (strategy close)).length := by
    rw [hdays]
    exact List.length_pos.2 hne
  simp only [run, calculate_metrics, dropna_map_some]
  rw [if_neg (by omega)]
  show (if 0 < (strategy_returns total_cost close (strategy close)).length ∧
      -1 < ((strategy_returns total_cost close (strategy close)).map
        (fun r => 1 + r)).prod - 1 then
      (1 + (((strategy_returns total_cost close (strategy close)).map
        (fun r => 1 + r)).prod - 1)) ^
        ((365 : ℝ) /
          ((strategy_returns total_cost close (strategy close)).length : ℝ)) - 1
    else 0) = _
  by_cases hT : -1 < ((strategy_returns total_cost close (strategy close)).map
      (fun r => 1 + r)).prod - 1
  · rw [if_pos ⟨hpos, hT⟩, if_pos hT, hdays]
  · rw [if_neg (fun hc => hT hc.2), if_neg hT]

/-- Witness for the amended C3 at closes `[1,2]`, constant long signal. -/
theorem run_annual_return_full_bar_count_witness :
    (run ((1 : ℝ)/500) 1 [1, 2] (fun _ => [1, 1])).metrics.annual_return =
      if -1 < ((strategy_returns ((1 : ℝ)/500) [1, 2] [1, 1]).map
          (fun r => 1 + r)).prod - 1 then
        (1 + (((strategy_returns ((1 : ℝ)/500) [1, 2] [1, 1]).map
          (fun r => 1 + r)).prod - 1)) ^
          ((365 : ℝ) / (([1, 2] : List ℝ).length : ℝ)) - 1
      else 0 :=
  run_annual_return_full_bar_count (1/500) 1 [1, 2] (by simp)
    (fun _ => [1, 1])

end QuantBot
